import Mathlib

/-!
Shallow embedding of the math_quiz library (src/lib.rs) and proofs of the
spec claims about it.

Modelling conventions:
* Machine integers (`u8`, `u16`, `usize`) are modelled as `Nat`; where the
  source performs arithmetic that can overflow or underflow, the operation is
  checked explicitly and a Rust panic (the behaviour with overflow checks
  enabled, as in debug and test profiles) is modelled as `Option.none`.
* `f32` scores are modelled as exact rationals `ℚ`; all score values produced
  by the program are small integers, exactly representable in `f32`.
* The random draw consumed by `select_problem` is passed as an explicit
  `pick` parameter instead of being produced by a thread-local generator;
  the source draws it uniformly from the closed interval `[0, max_score]`.
-/

namespace MathQuiz

/-- Arithmetic operators of the quiz (enum `MathOp` in src/lib.rs); the
`Divide` variant is commented out in the source and therefore omitted. -/
inductive MathOp where
  | Plus
  | Minus
  | Multiply
  deriving DecidableEq

/-- Model of Rust `std::time::Duration`: whole seconds plus a nanosecond
remainder. -/
structure Duration where
  secs : Nat
  nanos : Nat
  deriving DecidableEq

/-- `Duration::as_secs`: the whole seconds of a duration. -/
def Duration.as_secs (d : Duration) : Nat := d.secs

/-- `Duration::from_secs`: a duration of exactly `s` whole seconds. -/
def Duration.from_secs (s : Nat) : Duration := ⟨s, 0⟩

/-- The `Problem` struct of src/lib.rs: two `u8` operands, an operator, the
precomputed `u8` answer, the `u16` wrong-answer counter, and the duration of
the most recent correct answer. -/
structure Problem where
  operands : Nat × Nat
  operator : MathOp
  answer : Nat
  num_wrong : Nat
  latest_time : Duration
  deriving DecidableEq

/-- `Problem::new` (src/lib.rs lines 59-70).  The answer is computed with
`u8` arithmetic: `operands[0]+operands[1]`, `operands[0]-operands[1]` or
`operands[0]*operands[1]`.  A `u8` overflow of `+`/`*`, or an underflow of
`-` when `operands.1 < operands.2`, is a Rust arithmetic error (a panic with
overflow checks on), modelled as `none`. -/
def Problem.new (operands : Nat × Nat) (operator : MathOp) (num_wrong : Nat)
    (latest_time : Duration) : Option Problem :=
  match operator with
  | .Plus =>
      if operands.1 + operands.2 < 256 then
        some ⟨operands, .Plus, operands.1 + operands.2, num_wrong, latest_time⟩
      else none
  | .Minus =>
      if operands.2 ≤ operands.1 then
        some ⟨operands, .Minus, operands.1 - operands.2, num_wrong, latest_time⟩
      else none
  | .Multiply =>
      if operands.1 * operands.2 < 256 then
        some ⟨operands, .Multiply, operands.1 * operands.2, num_wrong, latest_time⟩
      else none

/-- `Problem::get_score` (src/lib.rs lines 72-74):
`self.num_wrong as f32 * 30.0 + self.latest_time.as_secs() as f32`,
with `f32` modelled as exact rational arithmetic. -/
def Problem.get_score (p : Problem) : ℚ :=
  (p.num_wrong : ℚ) * 30 + (p.latest_time.as_secs : ℚ)

/-- `Problem::check_guess` (src/lib.rs lines 80-90), returning the updated
problem together with the `bool` result.  On a correct guess it stores the
elapsed time and decrements `num_wrong` when it is greater than 1; on a
wrong guess it increments the `u16` counter `num_wrong`, which overflows
when `num_wrong = 65535` (a panic with overflow checks on, modelled as
`none`). -/
def Problem.check_guess (p : Problem) (guess : Nat) (elapsed_time : Duration) :
    Option (Problem × Bool) :=
  if p.answer = guess then
    some ({ p with
            latest_time := elapsed_time
            num_wrong := (if 1 < p.num_wrong then p.num_wrong - 1 else p.num_wrong) },
          true)
  else
    if p.num_wrong + 1 < 2 ^ 16 then
      some ({ p with num_wrong := p.num_wrong + 1 }, false)
    else none

/-- `add_addition` (src/lib.rs lines 108-118): for `x in 1..=15`, `y in 0..=13`
push `[x, y] +`, and when `x ≠ y` also `[y, x] +`, each with `num_wrong = 0`
and a 5-second base duration.  All these constructions succeed (sums are at
most 28), so flattening the `Option`s loses nothing. -/
def add_addition (problems : List Problem) : List Problem :=
  problems ++ ((List.range' 1 15).flatMap fun x =>
    (List.range 14).flatMap fun y =>
      (Problem.new (x, y) .Plus 0 (Duration.from_secs 5)).toList ++
      (if x ≠ y then (Problem.new (y, x) .Plus 0 (Duration.from_secs 5)).toList
       else []))

/-- `add_subtraction` (src/lib.rs lines 120-127): for `x in 0..=15`,
`y in 1..x` push `[x, y] -` with `num_wrong = 0` and a 10-second base
duration. -/
def add_subtraction (problems : List Problem) : List Problem :=
  problems ++ ((List.range 16).flatMap fun x =>
    (List.range' 1 (x - 1)).filterMap fun y =>
      Problem.new (x, y) .Minus 0 (Duration.from_secs 10))

/-- `add_mult` (src/lib.rs lines 129-137): for `x in 1..=5`, `y in 1..=3`
push `[x, y] ×` with `num_wrong = 0` and a 15-second base duration. -/
def add_mult (problems : List Problem) : List Problem :=
  problems ++ ((List.range' 1 5).flatMap fun x =>
    (List.range' 1 3).flatMap fun y =>
      (Problem.new (x, y) .Multiply 0 (Duration.from_secs 15)).toList)

/-- `init_problems` (src/lib.rs lines 100-104): addition, then subtraction,
then multiplication problems are appended to the catalog. -/
def init_problems (problems : List Problem) : List Problem :=
  add_mult (add_subtraction (add_addition problems))

/-- The catalog's score total, called `max_score` in `select_problem`
(src/lib.rs line 141): the sum of all problems' scores in iteration order. -/
def max_score (problems : List Problem) : ℚ :=
  (problems.map Problem.get_score).sum

/-- The scan loop of `select_problem` (src/lib.rs lines 145-150): walk the
scores keeping a running sum `acc`; return the first index whose running sum
reaches `pick`, or `none` when the loop falls through. -/
def select_loop (scores : List ℚ) (pick acc : ℚ) (idx : Nat) : Option Nat :=
  match scores with
  | [] => none
  | s :: rest =>
      if pick ≤ acc + s then some idx else select_loop rest pick (acc + s) (idx + 1)

/-- `select_problem` (src/lib.rs lines 139-154) with the random `pick` passed
explicitly.  When the scan loop falls through, the source returns
`problems.len() - 1`; on an empty catalog that `usize` subtraction underflows
(a panic with overflow checks on), modelled as `none`. -/
def select_problem (problems : List Problem) (pick : ℚ) : Option Nat :=
  match select_loop (problems.map Problem.get_score) pick 0 0 with
  | some i => some i
  | none => if problems.length = 0 then none else some (problems.length - 1)

/-- Cumulative sum of the first `n` scores, the value the scan loop's running
sum holds after consuming `n` entries. -/
def cumulative (scores : List ℚ) (n : Nat) : ℚ := (scores.take n).sum

theorem cumulative_zero (scores : List ℚ) : cumulative scores 0 = 0 := rfl

theorem cumulative_cons (s : ℚ) (rest : List ℚ) (n : Nat) :
    cumulative (s :: rest) (n + 1) = s + cumulative rest n := by
  simp [cumulative]

theorem cumulative_length (scores : List ℚ) :
    cumulative scores scores.length = scores.sum := by
  simp [cumulative]

/-- Characterisation of the scan loop: either it stops at the first offset
`j` whose running sum reaches `pick` and returns `idx + j`, or no offset
qualifies and it returns `none`. -/
theorem select_loop_spec (scores : List ℚ) (pick : ℚ) :
    ∀ (acc : ℚ) (idx : Nat),
      (∃ j, j < scores.length ∧ select_loop scores pick acc idx = some (idx + j) ∧
        pick ≤ acc + cumulative scores (j + 1) ∧
        ∀ k, k < j → acc + cumulative scores (k + 1) < pick) ∨
      (select_loop scores pick acc idx = none ∧
        ∀ k, k < scores.length → acc + cumulative scores (k + 1) < pick) := by
  induction scores with
  | nil =>
      intro acc idx
      exact Or.inr ⟨rfl, fun k hk => absurd hk (Nat.not_lt_zero k)⟩
  | cons s rest ih =>
      intro acc idx
      by_cases h : pick ≤ acc + s
      · refine Or.inl ⟨0, Nat.succ_pos _, ?_, ?_, fun k hk => absurd hk (Nat.not_lt_zero k)⟩
        · simp [select_loop, h]
        · simpa [cumulative_cons, cumulative_zero] using h
      · have hlt : acc + s < pick := lt_of_not_le h
        have hstep : select_loop (s :: rest) pick acc idx
            = select_loop rest pick (acc + s) (idx + 1) := by
          simp [select_loop, h]
        rcases ih (acc + s) (idx + 1) with ⟨j, hj, heq, hge, hk⟩ | ⟨heq, hk⟩
        · refine Or.inl ⟨j + 1, by simpa using Nat.succ_lt_succ hj, ?_, ?_, ?_⟩
          · rw [hstep, heq]
            congr 1
            omega
          · rw [cumulative_cons]
            linarith
          · intro k hklt
            cases k with
            | zero => simpa [cumulative_cons, cumulative_zero] using hlt
            | succ m =>
                rw [cumulative_cons]
                have := hk m (Nat.lt_of_succ_lt_succ hklt)
                linarith
        · refine Or.inr ⟨hstep.trans heq, ?_⟩
          intro k hklt
          cases k with
          | zero => simpa [cumulative_cons, cumulative_zero] using hlt
          | succ m =>
              rw [cumulative_cons]
              have := hk m (by simpa using Nat.lt_of_succ_lt_succ hklt)
              linarith

/-- Characterisation of `select_problem` on a non-empty catalog: either it
returns the first index whose running score sum reaches `pick`, or no index
qualifies and it returns the last index. -/
theorem select_problem_spec (problems : List Problem) (pick : ℚ)
    (hne : problems ≠ []) :
    (∃ i, i < problems.length ∧ select_problem problems pick = some i ∧
      pick ≤ cumulative (problems.map Problem.get_score) (i + 1) ∧
      ∀ k, k < i → cumulative (problems.map Problem.get_score) (k + 1) < pick) ∨
    (select_problem problems pick = some (problems.length - 1) ∧
      ∀ k, k < problems.length →
        cumulative (problems.map Problem.get_score) (k + 1) < pick) := by
  rcases select_loop_spec (problems.map Problem.get_score) pick 0 0 with
    ⟨j, hj, heq, hge, hk⟩ | ⟨heq, hk⟩
  · left
    refine ⟨j, by simpa using hj, ?_, by simpa using hge, fun k hkj => ?_⟩
    · simp [select_problem, heq]
    · simpa using hk k hkj
  · right
    have hlen : problems.length ≠ 0 := by
      simpa [List.length_eq_zero] using hne
    refine ⟨by simp [select_problem, heq, hlen], fun k hk2 => ?_⟩
    simpa using hk k (by simpa using hk2)

/-- Sample problem used to witness the selection theorems: 1 + 2 with two
recorded wrong answers and a 5-second latest solve time, so its score is
2 * 30 + 5 = 65. -/
def sample_problem : Problem := ⟨(1, 2), .Plus, 3, 2, Duration.from_secs 5⟩

/-- Zero-score problem used to witness the degenerate-catalog theorem:
no wrong answers and a 0-second latest solve time. -/
def zero_problem : Problem := ⟨(1, 1), .Plus, 2, 0, Duration.from_secs 0⟩

/-- C1: for every non-empty catalog and every draw `pick` in `[0, total]`,
`select_problem` returns the first index at which the running cumulative sum
of scores is `≥ pick`; and whenever no index satisfies the condition (which
needs a draw above every running sum, possible only through floating-point
rounding), it returns the last index. -/
theorem select_problem_first_reaching_index (problems : List Problem) (pick : ℚ)
    (hne : problems ≠ []) (h0 : 0 ≤ pick) (hle : pick ≤ max_score problems) :
    (∃ i, select_problem problems pick = some i ∧
      pick ≤ cumulative (problems.map Problem.get_score) (i + 1) ∧
      ∀ k, k < i → cumulative (problems.map Problem.get_score) (k + 1) < pick) ∧
    (∀ q : ℚ, (∀ k, k < problems.length →
        cumulative (problems.map Problem.get_score) (k + 1) < q) →
      select_problem problems q = some (problems.length - 1)) := by
  have hlen : 0 < problems.length := List.length_pos.mpr hne
  constructor
  · rcases select_problem_spec problems pick hne with
      ⟨i, _, heq, hge, hk⟩ | ⟨_, hk⟩
    · exact ⟨i, heq, hge, hk⟩
    · exfalso
      have hlast := hk (problems.length - 1) (by omega)
      rw [Nat.sub_add_cancel hlen] at hlast
      have hl2 : cumulative (problems.map Problem.get_score)
          (problems.map Problem.get_score).length < pick := by
        simpa using hlast
      rw [cumulative_length] at hl2
      exact absurd hle (not_le.mpr (by simpa [max_score] using hl2))
  · intro q hq
    rcases select_problem_spec problems q hne with
      ⟨i, hilen, _, hge, _⟩ | ⟨heq, _⟩
    · exact absurd hge (not_le.mpr (hq i hilen))
    · exact heq

/-- Witness for C1 at the one-problem catalog `[sample_problem]` and the
draw `pick = 1`. -/
theorem select_problem_first_reaching_index_witness :
    (∃ i, select_problem [sample_problem] 1 = some i ∧
      (1 : ℚ) ≤ cumulative ([sample_problem].map Problem.get_score) (i + 1) ∧
      ∀ k, k < i →
        cumulative ([sample_problem].map Problem.get_score) (k + 1) < 1) ∧
    (∀ q : ℚ, (∀ k, k < [sample_problem].length →
        cumulative ([sample_problem].map Problem.get_score) (k + 1) < q) →
      select_problem [sample_problem] q = some ([sample_problem].length - 1)) :=
  select_problem_first_reaching_index [sample_problem] 1 (by simp)
    (by norm_num)
    (by norm_num [max_score, Problem.get_score, sample_problem, Duration.as_secs,
          Duration.from_secs])

/-- C2: for every non-empty catalog and every admissible draw in
`[0, total]`, `select_problem` returns a valid index in `[0, len - 1]`. -/
theorem select_problem_index_in_range (problems : List Problem) (pick : ℚ)
    (hne : problems ≠ []) (h0 : 0 ≤ pick) (hle : pick ≤ max_score problems) :
    ∃ i, select_problem problems pick = some i ∧ i < problems.length := by
  have hlen : 0 < problems.length := List.length_pos.mpr hne
  rcases select_problem_spec problems pick hne with
    ⟨i, hilen, heq, _, _⟩ | ⟨heq, _⟩
  · exact ⟨i, heq, hilen⟩
  · exact ⟨problems.length - 1, heq, by omega⟩

/-- Witness for C2 at the one-problem catalog `[sample_problem]` and the
draw `pick = 65` (the catalog's total score). -/
theorem select_problem_index_in_range_witness :
    ∃ i, select_problem [sample_problem] 65 = some i ∧ i < [sample_problem].length :=
  select_problem_index_in_range [sample_problem] 65 (by simp)
    (by norm_num)
    (by norm_num [max_score, Problem.get_score, sample_problem, Duration.as_secs,
          Duration.from_secs])

/-- C3: on an empty catalog `select_problem` reaches the fallback
`problems.len() - 1`, whose `usize` subtraction underflows: with overflow
checks on this is a panic, modelled as `none` — an explicit failure, not an
out-of-bounds read nor a silently returned default index. -/
theorem select_problem_empty_catalog_fails (pick : ℚ) :
    select_problem [] pick = none := rfl

/-- C4: on a non-empty catalog whose scores are all zero, the score total is
zero, every admissible draw in `[0, total]` collapses to exactly 0, and the
pick 0 deterministically selects index 0; no division is involved. -/
theorem select_problem_all_zero_scores (problems : List Problem)
    (hne : problems ≠ []) (hz : ∀ p ∈ problems, p.get_score = 0) :
    max_score problems = 0 ∧
    (∀ pick : ℚ, 0 ≤ pick → pick ≤ max_score problems → pick = 0) ∧
    select_problem problems 0 = some 0 := by
  have htot : max_score problems = 0 := by
    refine List.sum_eq_zero ?_
    intro x hx
    rcases List.mem_map.mp hx with ⟨p, hp, rfl⟩
    exact hz p hp
  refine ⟨htot, fun pick h0 hle => le_antisymm (htot ▸ hle) h0, ?_⟩
  obtain ⟨p, rest, rfl⟩ := List.exists_cons_of_ne_nil hne
  have hp : p.get_score = 0 := hz p (by simp)
  simp [select_problem, select_loop, hp]

/-- Witness for C4 at the one-problem catalog `[zero_problem]`. -/
theorem select_problem_all_zero_scores_witness :
    max_score [zero_problem] = 0 ∧
    (∀ pick : ℚ, 0 ≤ pick → pick ≤ max_score [zero_problem] → pick = 0) ∧
    select_problem [zero_problem] 0 = some 0 :=
  select_problem_all_zero_scores [zero_problem] (by simp)
    (by
      intro p hp
      simp only [List.mem_singleton] at hp
      subst hp
      norm_num [Problem.get_score, zero_problem, Duration.as_secs, Duration.from_secs])

/-- C5: a correct guess stores the supplied elapsed time into `latest_time`,
decrements `num_wrong` exactly when it is greater than 1 (so `num_wrong = 1`
stays 1 and a positive counter never reaches 0 on this path), leaves the
arithmetic fields unchanged, and returns `true`. -/
theorem check_guess_correct (p : Problem) (elapsed : Duration) :
    ∃ p', p.check_guess p.answer elapsed = some (p', true) ∧
      p'.latest_time = elapsed ∧
      p'.num_wrong = (if 1 < p.num_wrong then p.num_wrong - 1 else p.num_wrong) ∧
      (1 < p.num_wrong → p'.num_wrong = p.num_wrong - 1) ∧
      (p.num_wrong = 1 → p'.num_wrong = 1) ∧
      (0 < p.num_wrong → 0 < p'.num_wrong) ∧
      p'.operands = p.operands ∧ p'.operator = p.operator ∧ p'.answer = p.answer := by
  refine ⟨{ p with
            latest_time := elapsed
            num_wrong := (if 1 < p.num_wrong then p.num_wrong - 1 else p.num_wrong) },
    by simp [Problem.check_guess], rfl, rfl, ?_, ?_, ?_, rfl, rfl, rfl⟩
  · intro h
    simp [h]
  · intro h
    simp [h]
  · intro h
    by_cases h1 : 1 < p.num_wrong <;> simp [h1] <;> omega

/-- Witness for C5 at `sample_problem` (answer 3, `num_wrong = 2`) with a
7-second elapsed time. -/
theorem check_guess_correct_witness :
    ∃ p', sample_problem.check_guess sample_problem.answer (Duration.from_secs 7) =
        some (p', true) ∧
      p'.latest_time = Duration.from_secs 7 ∧
      p'.num_wrong = (if 1 < sample_problem.num_wrong then sample_problem.num_wrong - 1
        else sample_problem.num_wrong) ∧
      (1 < sample_problem.num_wrong → p'.num_wrong = sample_problem.num_wrong - 1) ∧
      (sample_problem.num_wrong = 1 → p'.num_wrong = 1) ∧
      (0 < sample_problem.num_wrong → 0 < p'.num_wrong) ∧
      p'.operands = sample_problem.operands ∧ p'.operator = sample_problem.operator ∧
      p'.answer = sample_problem.answer :=
  check_guess_correct sample_problem (Duration.from_secs 7)

/-- A reachable problem state whose `u16` wrong-answer counter sits at the
maximum 65535 (reached by 65535 consecutive wrong answers, which nothing in
the code prevents). -/
def maxed_problem : Problem := ⟨(1, 1), .Plus, 2, 65535, Duration.from_secs 5⟩

/-- C6 counterexample: at `num_wrong = 65535` a wrong guess does not
increment the counter and return `false`; the `u16` increment overflows
(a panic with overflow checks on, wrap-around to 0 otherwise), so no updated
problem with `num_wrong + 1` is produced. -/
theorem check_guess_wrong_overflow_counterexample :
    maxed_problem.check_guess 7 (Duration.from_secs 0) = none ∧
    ¬ ∃ p', maxed_problem.check_guess 7 (Duration.from_secs 0) = some (p', false) := by
  refine ⟨rfl, ?_⟩
  rintro ⟨p', hp'⟩
  rw [show maxed_problem.check_guess 7 (Duration.from_secs 0) = none from rfl] at hp'
  exact Option.noConfusion hp'

/-- C6 amended: for every problem whose `u16` counter is below 65535, a
wrong guess increments `num_wrong` by exactly 1 (no saturation ceiling short
of the `u16` width), leaves `latest_time` and the arithmetic fields
unchanged, and returns `false`. -/
theorem check_guess_wrong (p : Problem) (guess : Nat) (elapsed : Duration)
    (hg : p.answer ≠ guess) (hw : p.num_wrong < 65535) :
    ∃ p', p.check_guess guess elapsed = some (p', false) ∧
      p'.num_wrong = p.num_wrong + 1 ∧
      p'.latest_time = p.latest_time ∧
      p'.operands = p.operands ∧ p'.operator = p.operator ∧ p'.answer = p.answer := by
  have h2 : p.num_wrong + 1 < 2 ^ 16 := by omega
  exact ⟨{ p with num_wrong := p.num_wrong + 1 },
    by simp [Problem.check_guess, hg, h2, hw], rfl, rfl, rfl, rfl, rfl⟩

/-- Witness for C6's amended statement at `sample_problem` with the wrong
guess 7. -/
theorem check_guess_wrong_witness :
    ∃ p', sample_problem.check_guess 7 (Duration.from_secs 9) = some (p', false) ∧
      p'.num_wrong = sample_problem.num_wrong + 1 ∧
      p'.latest_time = sample_problem.latest_time ∧
      p'.operands = sample_problem.operands ∧ p'.operator = sample_problem.operator ∧
      p'.answer = sample_problem.answer :=
  check_guess_wrong sample_problem 7 (Duration.from_secs 9) (by decide) (by decide)

/-- C7: the score equals the second admissible formula
`wrong_count * 30 + latest_seconds` — a single formula applied uniformly to
every problem — and it is monotonically increasing in `num_wrong` and in the
whole seconds of `latest_time`, strictly in each argument. -/
theorem get_score_formula_monotone :
    (∀ p : Problem,
      p.get_score = (p.num_wrong : ℚ) * 30 + (p.latest_time.as_secs : ℚ)) ∧
    (∀ p q : Problem, p.num_wrong ≤ q.num_wrong →
      p.latest_time.as_secs ≤ q.latest_time.as_secs → p.get_score ≤ q.get_score) ∧
    (∀ p q : Problem, p.num_wrong < q.num_wrong →
      p.latest_time.as_secs ≤ q.latest_time.as_secs → p.get_score < q.get_score) ∧
    (∀ p q : Problem, p.num_wrong ≤ q.num_wrong →
      p.latest_time.as_secs < q.latest_time.as_secs → p.get_score < q.get_score) := by
  refine ⟨fun p => rfl, ?_, ?_, ?_⟩
  · intro p q h1 h2
    have c1 : (p.num_wrong : ℚ) ≤ (q.num_wrong : ℚ) := Nat.cast_le.mpr h1
    have c2 : (p.latest_time.as_secs : ℚ) ≤ (q.latest_time.as_secs : ℚ) :=
      Nat.cast_le.mpr h2
    simp only [Problem.get_score]
    linarith
  · intro p q h1 h2
    have c1 : (p.num_wrong : ℚ) < (q.num_wrong : ℚ) := Nat.cast_lt.mpr h1
    have c2 : (p.latest_time.as_secs : ℚ) ≤ (q.latest_time.as_secs : ℚ) :=
      Nat.cast_le.mpr h2
    simp only [Problem.get_score]
    linarith
  · intro p q h1 h2
    have c1 : (p.num_wrong : ℚ) ≤ (q.num_wrong : ℚ) := Nat.cast_le.mpr h1
    have c2 : (p.latest_time.as_secs : ℚ) < (q.latest_time.as_secs : ℚ) :=
      Nat.cast_lt.mpr h2
    simp only [Problem.get_score]
    linarith

/-- Witness for C7's monotonicity at `zero_problem` (score 0) and
`sample_problem` (score 65). -/
theorem get_score_formula_monotone_witness :
    zero_problem.get_score ≤ sample_problem.get_score :=
  get_score_formula_monotone.2.1 zero_problem sample_problem (by decide) (by decide)

/-- The problem values built by the three `Problem::new` calls of the test
`tests::test_select` (src/lib.rs lines 169-183): `[7,6] +` with 30 wrongs
and 30 s, `[1,1] +` with 10 wrongs and 20 s, `[7,6] +` with 5 wrongs and
5 s. -/
def test_problem0 : Problem := ⟨(7, 6), .Plus, 13, 30, Duration.from_secs 30⟩

/-- Second test problem of `tests::test_select`. -/
def test_problem1 : Problem := ⟨(1, 1), .Plus, 2, 10, Duration.from_secs 20⟩

/-- Third test problem of `tests::test_select`. -/
def test_problem2 : Problem := ⟨(7, 6), .Plus, 13, 5, Duration.from_secs 5⟩

/-- C8 counterexample: the first test problem (`num_wrong = 30`, 30 s) does
not have score 60; under the source formula `num_wrong * 30 + secs` its
score is 930. -/
theorem test_select_scores_counterexample :
    (Problem.new (7, 6) .Plus 30 (Duration.from_secs 30)).map Problem.get_score ≠
      some 60 := by
  rw [show Problem.new (7, 6) .Plus 30 (Duration.from_secs 30) = some test_problem0
    from rfl]
  simp only [Option.map_some', ne_eq, Option.some.injEq]
  norm_num [Problem.get_score, test_problem0, Duration.as_secs, Duration.from_secs]

/-- C8 amended: the three test problems have scores 930, 320 and 155 under
the source formula `num_wrong * 30 + secs`, summing to 1405, so their
expected selection frequencies are 930/1405 ≈ 66.2 %, 320/1405 ≈ 22.8 % and
155/1405 ≈ 11.0 % (the percentages the test itself asserts), not 60 %, 30 %
and 10 %. -/
theorem test_select_scores_amended :
    Problem.new (7, 6) .Plus 30 (Duration.from_secs 30) = some test_problem0 ∧
    Problem.new (1, 1) .Plus 10 (Duration.from_secs 20) = some test_problem1 ∧
    Problem.new (7, 6) .Plus 5 (Duration.from_secs 5) = some test_problem2 ∧
    test_problem0.get_score = 930 ∧ test_problem1.get_score = 320 ∧
    test_problem2.get_score = 155 ∧
    max_score [test_problem0, test_problem1, test_problem2] = 1405 ∧
    test_problem0.get_score / max_score [test_problem0, test_problem1, test_problem2]
      = 930 / 1405 ∧
    test_problem1.get_score / max_score [test_problem0, test_problem1, test_problem2]
      = 320 / 1405 ∧
    test_problem2.get_score / max_score [test_problem0, test_problem1, test_problem2]
      = 155 / 1405 := by
  refine ⟨rfl, rfl, rfl, ?_, ?_, ?_, ?_, ?_, ?_, ?_⟩ <;>
    norm_num [Problem.get_score, max_score, test_problem0, test_problem1,
      test_problem2, Duration.as_secs, Duration.from_secs]

/-- C9: constructing a problem with operator `Minus` and
`operands.1 < operands.2` fails at construction: the `u8` subtraction
underflows, a Rust arithmetic error (panic with overflow checks on,
modelled as `none`), so no clamped or wrapped answer is produced. -/
theorem new_subtraction_underflow_fails (a b num_wrong : Nat) (t : Duration)
    (h : a < b) :
    Problem.new (a, b) .Minus num_wrong t = none := by
  have hn : ¬ ((a, b).2 ≤ (a, b).1) := by simpa using not_le.mpr h
  simp [Problem.new, hn]

/-- Witness for C9 at operands `(3, 7)`. -/
theorem new_subtraction_underflow_fails_witness :
    Problem.new (3, 7) .Minus 0 (Duration.from_secs 10) = none :=
  new_subtraction_underflow_fails 3 7 0 (Duration.from_secs 10) (by decide)

/-- A successful `Problem::new` always stores the requested operator. -/
theorem new_some_operator (operands : Nat × Nat) (op : MathOp) (nw : Nat)
    (t : Duration) (p : Problem) (h : Problem.new operands op nw t = some p) :
    p.operator = op := by
  cases op <;> simp only [Problem.new] at h <;> split at h <;>
    first
      | (obtain rfl := Option.some.inj h; rfl)
      | exact Option.noConfusion h

/-- Inversion of a successful `Problem::new` with operator `Minus`: the
operands are ordered, stored verbatim, and the answer is their difference. -/
theorem new_minus_inversion (operands : Nat × Nat) (nw : Nat) (t : Duration)
    (p : Problem) (h : Problem.new operands .Minus nw t = some p) :
    operands.2 ≤ operands.1 ∧ p.operator = MathOp.Minus ∧
    p.operands = operands ∧ p.answer = operands.1 - operands.2 := by
  simp only [Problem.new] at h
  by_cases hle : operands.2 ≤ operands.1
  · rw [if_pos hle] at h
    obtain rfl := Option.some.inj h
    exact ⟨hle, rfl, rfl, rfl⟩
  · rw [if_neg hle] at h
    exact Option.noConfusion h

/-- Every problem `add_addition` appends carries operator `Plus`. -/
theorem mem_add_addition (problems : List Problem) (p : Problem)
    (hp : p ∈ add_addition problems) : p ∈ problems ∨ p.operator = MathOp.Plus := by
  rcases List.mem_append.mp hp with h | h
  · exact Or.inl h
  · right
    rcases List.mem_flatMap.mp h with ⟨x, _, hy⟩
    rcases List.mem_flatMap.mp hy with ⟨y, _, hz⟩
    rcases List.mem_append.mp hz with h1 | h1
    · exact new_some_operator _ _ _ _ p (by simpa using h1)
    · split at h1
      · exact new_some_operator _ _ _ _ p (by simpa using h1)
      · simp at h1

/-- Every problem `add_mult` appends carries operator `Multiply`. -/
theorem mem_add_mult (problems : List Problem) (p : Problem)
    (hp : p ∈ add_mult problems) : p ∈ problems ∨ p.operator = MathOp.Multiply := by
  rcases List.mem_append.mp hp with h | h
  · exact Or.inl h
  · right
    rcases List.mem_flatMap.mp h with ⟨x, _, hy⟩
    rcases List.mem_flatMap.mp hy with ⟨y, _, hz⟩
    exact new_some_operator _ _ _ _ p (by simpa using hz)

/-- Every problem `add_subtraction` appends is a `Minus` problem whose first
operand strictly exceeds the second, with answer their difference, at
least 1. -/
theorem mem_add_subtraction (problems : List Problem) (p : Problem)
    (hp : p ∈ add_subtraction problems) :
    p ∈ problems ∨ (p.operator = MathOp.Minus ∧ p.operands.2 < p.operands.1 ∧
      p.answer = p.operands.1 - p.operands.2 ∧ 1 ≤ p.answer) := by
  rcases List.mem_append.mp hp with h | h
  · exact Or.inl h
  · right
    rcases List.mem_flatMap.mp h with ⟨x, _, hy⟩
    rcases List.mem_filterMap.mp hy with ⟨y, hy', hnew⟩
    have hyr : 1 ≤ y ∧ y < 1 + (x - 1) := by
      simpa using List.mem_range'_1.mp hy'
    obtain ⟨_, hop, hoper, hans⟩ :=
      new_minus_inversion (x, y) 0 (Duration.from_secs 10) p hnew
    have hx1 : p.operands.1 = x := by rw [hoper]
    have hx2 : p.operands.2 = y := by rw [hoper]
    have hyx : y < x := by omega
    have ha : p.answer = x - y := by simpa using hans
    refine ⟨hop, ?_, ?_, ?_⟩
    · rw [hx1, hx2]
      exact hyx
    · rw [ha, hx1, hx2]
    · rw [ha]
      omega

/-- C10: every subtraction problem appended by `add_subtraction` — and hence
every subtraction problem that `init_problems` adds to the catalog — has
`operands.1 > operands.2`, so the construction-time `u8` subtraction never
underflows and the stored answer is at least 1. -/
theorem subtraction_problems_well_formed (problems : List Problem) :
    (∀ p ∈ add_subtraction problems, p ∉ problems →
      p.operator = MathOp.Minus ∧ p.operands.2 < p.operands.1 ∧
      p.answer = p.operands.1 - p.operands.2 ∧ 1 ≤ p.answer) ∧
    (∀ p ∈ init_problems problems, p.operator = MathOp.Minus → p ∉ problems →
      p.operands.2 < p.operands.1 ∧ 1 ≤ p.answer) := by
  constructor
  · intro p hp hnot
    rcases mem_add_subtraction problems p hp with h | h
    · exact absurd h hnot
    · exact h
  · intro p hp hop hnot
    rcases mem_add_mult _ p hp with h | h
    · rcases mem_add_subtraction _ p h with h2 | h2
      · rcases mem_add_addition _ p h2 with h3 | h3
        · exact absurd h3 hnot
        · rw [hop] at h3
          exact MathOp.noConfusion h3
      · exact ⟨h2.2.1, h2.2.2.2⟩
    · rw [hop] at h
      exact MathOp.noConfusion h

/-- First problem generated by `add_subtraction` on the empty catalog:
`2 - 1` with a 10-second base duration. -/
def generated_sub_problem : Problem := ⟨(2, 1), .Minus, 1, 0, Duration.from_secs 10⟩

/-- Witness for C10: the generated problem `2 - 1` is appended by
`add_subtraction` to the empty catalog and satisfies the invariant. -/
theorem subtraction_problems_well_formed_witness :
    generated_sub_problem.operator = MathOp.Minus ∧
    generated_sub_problem.operands.2 < generated_sub_problem.operands.1 ∧
    generated_sub_problem.answer =
      generated_sub_problem.operands.1 - generated_sub_problem.operands.2 ∧
    1 ≤ generated_sub_problem.answer :=
  (subtraction_problems_well_formed []).1 generated_sub_problem (by decide) (by decide)

end MathQuiz
